import Mathlib

/-!
Verification of the dataset reconciliation engine of the
`google-sheets-query` repository: row sorting (`sortRows`), dataset
equality (`areDatasetsEqual`) and positional diffing (`diffDatasets`)
from `src/utils/xlsx.ts`, together with the application-level suppression
logic (`differencesForDisplay`, `toggleIgnoreCell`) and the file-reload
state transition (`handleFiles`) from `src/App.tsx`.

Rows (`Record<string, string>` in the source) are modelled as
insertion-ordered association lists from column name to cell value.
JavaScript objects never hold duplicate keys, so every row the
application actually builds has a duplicate-free key list, but all
definitions below are total on arbitrary association lists.
`r[k] ?? ''` is modelled by `rget`, `Object.keys(r)` by `rkeys`.

The string comparison `localeCompare(·, 'he')` used by the sort is an
external ICU collation, not code of this repository, so it enters the
embedding as an explicit function parameter `lc`; theorems about sorting
assume only the order-theoretic facts that any ICU collation satisfies
(totality, transitivity and sign-antisymmetry of the comparison result).
-/

namespace GSQ

/-- A row of a dataset: the `Record<string, string>` of the source,
modelled as an insertion-ordered association list. -/
abbrev Row := List (String × String)

/-- Value of key `k` in row `r`, with an absent key read as the empty
string: the `r[k] ?? ''` idiom used throughout the source. -/
def rget (r : Row) (k : String) : String := (r.lookup k).getD ""

/-- Key list of a row in insertion order: `Object.keys(r)`. -/
def rkeys (r : Row) : List String := r.map Prod.fst

/-- Sort direction: the `'asc' | 'desc'` union type of the source. -/
inductive SortDirection where
| asc
| desc
deriving DecidableEq

/-- Comparator body of `sortRows` (src/utils/xlsx.ts lines 55-59):
`const av = a[column] ?? ''; const bv = b[column] ?? '';
const cmp = String(av).localeCompare(String(bv), 'he');
return direction === 'asc' ? cmp : -cmp;`.
The locale-aware string comparison is the parameter `lc`. -/
def rowCompare (lc : String → String → Int) (column : String)
    (direction : SortDirection) (a b : Row) : Int :=
  let av := rget a column
  let bv := rget b column
  let cmp := lc av bv
  match direction with
  | .asc => cmp
  | .desc => -cmp

/-- The "a sorts no later than b" Boolean relation induced by the
comparator: a JavaScript stable sort places `a` before `b` exactly when
the comparator returns a non-positive value. -/
def rowLE (lc : String → String → Int) (column : String)
    (direction : SortDirection) (a b : Row) : Bool :=
  rowCompare lc column direction a b ≤ 0

/-- Model of `sortRows` (src/utils/xlsx.ts lines 49-62): copies the
input array and sorts the copy with the comparator.
`Array.prototype.sort` is stable (ES2019), so it is modelled by a
stable merge sort; the input list is never mutated in the model by
construction. -/
def sortRows (lc : String → String → Int) (rows : List Row)
    (column : String) (direction : SortDirection) : List Row :=
  rows.mergeSort (rowLE lc column direction)

/-- Model of `areDatasetsEqual` (src/utils/xlsx.ts lines 64-80):
false on differing lengths; otherwise, at every index, the two rows
must have equally many keys and every key of the left row must carry
equal values on both sides after the `?? ''` normalization.
The source loop with early `return false` is the `List.all` below. -/
def areDatasetsEqual (a b : List Row) : Bool :=
  if a.length = b.length then
    (List.range a.length).all (fun i =>
      let ar := a.getD i []
      let br := b.getD i []
      let aKeys := rkeys ar
      let bKeys := rkeys br
      aKeys.length == bKeys.length &&
        aKeys.all (fun k => rget ar k == rget br k))
  else false

/-- One record of `diffDatasets` output:
`{ index: number; left?: Record<string, string>; right?: Record<string, string> }`. -/
structure DiffRec where
  index : Nat
  left : Option Row
  right : Option Row
deriving DecidableEq

/-- Inner row comparison of `diffDatasets` (src/utils/xlsx.ts lines
95-102): build the set union of both rows' keys (`new Set` is modelled
by `dedup`) and report a difference when some key's values differ after
the `?? ''` normalization; the source's mutable `equal` flag over
`forEach` is the `List.any` below. -/
def rowsDiffer (left right : Row) : Bool :=
  ((rkeys left ++ rkeys right).dedup).any
    (fun k => rget left k != rget right k)

/-- Model of `diffDatasets` (src/utils/xlsx.ts lines 82-105): loop `i`
from `0` to `max(a.length, b.length) - 1`, pushing a record with the
raw (possibly absent) sides when either side lacks a row, and a record
with both rows when some key of the union differs. -/
def diffDatasets (a b : List Row) : List DiffRec :=
  (List.range (max a.length b.length)).foldl
    (fun diffs i =>
      match a[i]?, b[i]? with
      | some left, some right =>
        if rowsDiffer left right then
          diffs ++ [⟨i, some left, some right⟩]
        else diffs
      | l, r => diffs ++ [⟨i, l, r⟩])
    []

/-- Follows the spec's words (§4.4, `equal`): true iff lengths match
and every row at the same index has, for every key present in either
row, the same value with an absent key read as the empty string.
This is the claim-side definition of dataset equality, to be compared
with the source-side `areDatasetsEqual`. -/
def specDatasetsEqual (a b : List Row) : Bool :=
  a.length == b.length &&
    (List.range a.length).all (fun i =>
      let ar := a.getD i []
      let br := b.getD i []
      (rkeys ar ++ rkeys br).all (fun k => rget ar k == rget br k))

/-- Follows the spec's words (§4.4, `diff`, and claim C6): the record
emitted for one position. When exactly one side has a row, a record
with only that side populated; when both sides have rows, a record
carrying both exactly when some column of the union of their keys has
differing values after absent-to-empty normalization; otherwise
nothing. Positions at which neither side has a row (unreachable below
`max` of the lengths) emit nothing. -/
def specDiffAtIndex (a b : List Row) (i : Nat) : Option DiffRec :=
  match a[i]?, b[i]? with
  | some l, some r =>
    if ∃ k ∈ rkeys l ++ rkeys r, rget l k ≠ rget r k then
      some ⟨i, some l, some r⟩
    else none
  | some l, none => some ⟨i, some l, none⟩
  | none, some r => some ⟨i, none, some r⟩
  | none, none => none

/-- Cell type enumeration of the source: `CellType` in App.tsx. -/
inductive CellType where
| number
| date
| boolean
| text
deriving DecidableEq

/-- Decimal digit test on a character. -/
def isDigitChar (c : Char) : Bool :=
  c == '0' || c == '1' || c == '2' || c == '3' || c == '4' ||
    c == '5' || c == '6' || c == '7' || c == '8' || c == '9'

/-- Case-insensitive match of one ASCII letter against its lowercase
and uppercase forms. -/
def charCI (c lower upper : Char) : Bool :=
  c == lower || c == upper

/-- Case-insensitive recognizer of the characters of `true`. -/
def isTrueLexical : List Char → Bool
  | [t, r, u, e] =>
    charCI t 't' 'T' && charCI r 'r' 'R' && charCI u 'u' 'U' &&
      charCI e 'e' 'E'
  | _ => false

/-- Case-insensitive recognizer of the characters of `false`. -/
def isFalseLexical : List Char → Bool
  | [f, a, l, s, e] =>
    charCI f 'f' 'F' && charCI a 'a' 'A' && charCI l 'l' 'L' &&
      charCI s 's' 'S' && charCI e 'e' 'E'
  | _ => false

/-- Recognizer for the boolean lexical forms: case-insensitive
`true` / `false`. -/
def isBooleanLexical (s : String) : Bool :=
  isTrueLexical s.data || isFalseLexical s.data

/-- Splits a character list at every occurrence of a separator; the
separator characters are dropped and empty components are kept. -/
def splitOnChar (sep : Char) : List Char → List (List Char)
  | [] => [[]]
  | c :: cs =>
    let rest := splitOnChar sep cs
    if c = sep then [] :: rest
    else
      match rest with
      | h :: t => (c :: h) :: t
      | [] => [[c]]

/-- Recognizer for the two accepted date shapes, fully parsed with all
components decimal digits: `YYYY-MM-DD` (component lengths 4, 2, 2) or
`D/M/YYYY` with one- or two-digit day and month and a four-digit year. -/
def isDateLexical (s : String) : Bool :=
  (match splitOnChar '-' s.data with
   | [y, m, d] =>
     y.length == 4 && m.length == 2 && d.length == 2 &&
       (y ++ m ++ d).all isDigitChar
   | _ => false) ||
  (match splitOnChar '/' s.data with
   | [d, m, y] =>
     (d.length == 1 || d.length == 2) && (m.length == 1 || m.length == 2) &&
       y.length == 4 && (d ++ m ++ y).all isDigitChar
   | _ => false)

/-- Recognizer for a fully-parsed finite decimal number: an optional
leading sign, a nonempty run of digits, and an optional nonempty
fractional digit run; no thousand separators are accepted. -/
def isNumberLexical (s : String) : Bool :=
  let t :=
    match s.data with
    | '-' :: rest => rest
    | '+' :: rest => rest
    | l => l
  match splitOnChar '.' t with
  | [i] => !i.isEmpty && i.all isDigitChar
  | [i, f] =>
    !i.isEmpty && !f.isEmpty && i.all isDigitChar && f.all isDigitChar
  | _ => false

/-- Modelled from the spec: `detectCellType` is imported by `App.tsx`
from `./utils/xlsx` but its definition is not under `src/`; only its
call sites are. Modelled from §4.1 of the spec, applying the documented
rules in priority order: empty string is text, then boolean lexical
forms, then fully-parsed dates, then fully-parsed numbers, and text as
the fallback. -/
def detectCellType (s : String) : CellType :=
  if s = "" then .text
  else if isBooleanLexical s then .boolean
  else if isDateLexical s then .date
  else if isNumberLexical s then .number
  else .text

/-- Key under which one cell-level diff is addressed: the template
string `` `${rowIndex}:${header}` `` of App.tsx. -/
def encodeKey (rowIndex : Nat) (header : String) : String :=
  Nat.repr rowIndex ++ ":" ++ header

/-- Left display value of a record at a header: `d.left?.[h] ?? ''`. -/
def displayLV (d : DiffRec) (h : String) : String :=
  match d.left with
  | some r => rget r h
  | none => ""

/-- Right display value of a record at a header: `d.right?.[h] ?? ''`. -/
def displayRV (d : DiffRec) (h : String) : String :=
  match d.right with
  | some r => rget r h
  | none => ""

/-- Per-cell filter body of `differencesForDisplay` (App.tsx lines
88-99): a cell is shown when its values differ, or, with the type
check enabled, when its detected cell types differ, and its key has
not been suppressed by the user. -/
def cellShown (enableTypeCheck : Bool) (ignored : List String)
    (d : DiffRec) (h : String) : Bool :=
  let lv := displayLV d h
  let rv := displayRV d h
  let valueDiffers := lv != rv
  let typeMismatch :=
    if enableTypeCheck then detectCellType lv != detectCellType rv
    else false
  let key := encodeKey d.index h
  (valueDiffers || typeMismatch) && !(ignored.contains key)

/-- Model of `differencesForDisplay` (App.tsx lines 85-100), past its
guard (with no loaded side or no chosen sort column the memo is the
empty list): keep the records for which some unified header has a
shown cell. `ignored` is the `ignoredCellKeys` state backing the
`ignoredSet`. -/
def differencesForDisplay (differences : List DiffRec)
    (unifiedHeaders : List String) (enableTypeCheck : Bool)
    (ignored : List String) : List DiffRec :=
  differences.filter (fun d => unifiedHeaders.any (cellShown enableTypeCheck ignored d))

/-- Model of `toggleIgnoreCell` (App.tsx lines 102-105) acting on the
`ignoredCellKeys` state list: remove the key when present, append it
when absent. -/
def toggleIgnoreCell (prev : List String) (rowIndex : Nat)
    (header : String) : List String :=
  let key := encodeKey rowIndex header
  if prev.contains key then prev.filter (fun k => k != key)
  else prev ++ [key]

/-- A parsed sheet: headers plus rows, the `ParsedSheet` of xlsx.ts. -/
structure ParsedSheet where
  headers : List String
  rows : List Row
deriving DecidableEq

/-- Which drop zone received the file. -/
inductive Side where
| left
| right
deriving DecidableEq

/-- The pieces of App component state that `handleFiles` can read or
write, plus the suppression list. -/
structure AppState where
  left : Option ParsedSheet
  right : Option ParsedSheet
  leftFileName : Option String
  rightFileName : Option String
  column : String
  error : Option String
  ignoredCellKeys : List String
deriving DecidableEq

/-- Model of the successful completion of `handleFiles` (App.tsx lines
172-194): clear the error, store the parsed sheet and file name on the
chosen side, and, when no sort column is chosen yet and the new sheet
has headers, select its first header. No other state field is written;
in particular `ignoredCellKeys` is not. -/
def handleFilesSuccess (st : AppState) (side : Side)
    (fileName : String) (parsed : ParsedSheet) : AppState :=
  let st1 : AppState := { st with error := none }
  let st2 : AppState :=
    match side with
    | .left => { st1 with left := some parsed, leftFileName := some fileName }
    | .right => { st1 with right := some parsed, rightFileName := some fileName }
  match parsed.headers with
  | [] => st2
  | h :: _ => if st2.column = "" then { st2 with column := h } else st2

/-- A concrete string comparison standing in for the external locale
collation in witnesses and counterexamples: compare string lengths.
It is total, transitive and sign-antisymmetric. -/
def lcLen (s t : String) : Int :=
  (s.length : Int) - (t.length : Int)

/-- Left dataset of the equality/diff disagreement: one row with keys
`x`, `y` where `y` is blank. -/
def cexA : List Row := [[("x", "1"), ("y", "")]]

/-- Right dataset of the equality/diff disagreement: one row with keys
`x`, `z` where `z` is nonempty; same key count as `cexA`'s row. -/
def cexB : List Row := [[("x", "1"), ("z", "2")]]

/-- Numeric value of a decimal digit character; non-digits read 0.
Used to decode the decimal rendering of a row index inside a
suppression key. -/
def digitVal (c : Char) : Nat :=
  if c = '1' then 1 else if c = '2' then 2 else if c = '3' then 3 else
  if c = '4' then 4 else if c = '5' then 5 else if c = '6' then 6 else
  if c = '7' then 7 else if c = '8' then 8 else if c = '9' then 9 else 0

/-- Decimal value of a digit-character list, most significant first. -/
def decodeDigits (l : List Char) : Nat :=
  l.foldl (fun acc c => 10 * acc + digitVal c) 0

/-- The Boolean row comparison of `diffDatasets` reports a difference
exactly when some key of either row carries different normalized
values on the two sides. -/
theorem rowsDiffer_eq_true_iff (l r : Row) :
    rowsDiffer l r = true ↔ ∃ k ∈ rkeys l ++ rkeys r, rget l k ≠ rget r k := by
  simp [rowsDiffer, List.any_eq_true, List.mem_dedup, bne_iff_ne]

/-- Below the shared length bound, at least one side has a row. -/
theorem not_both_none_of_lt_max {a b : List Row} {i : Nat}
    (h : i < max a.length b.length) : a[i]? ≠ none ∨ b[i]? ≠ none := by
  rcases Nat.lt_or_ge i a.length with ha | ha
  · exact Or.inl (by simp [List.getElem?_eq_getElem ha])
  · refine Or.inr ?_
    have hb : i < b.length := by omega
    simp [List.getElem?_eq_getElem hb]

/-- One loop iteration of `diffDatasets` appends exactly the record
that the per-position specification emits. -/
theorem diff_step_eq {a b : List Row} {i : Nat}
    (h : i < max a.length b.length) (ds : List DiffRec) :
    (match a[i]?, b[i]? with
      | some left, some right =>
        if rowsDiffer left right then
          ds ++ [⟨i, some left, some right⟩]
        else ds
      | l, r => ds ++ [⟨i, l, r⟩])
    = ds ++ (specDiffAtIndex a b i).toList := by
  rcases ha : a[i]? with _ | l <;> rcases hb : b[i]? with _ | r
  · rcases not_both_none_of_lt_max h with hc | hc <;> exact absurd (by assumption) hc
  · simp [specDiffAtIndex, ha, hb]
  · simp [specDiffAtIndex, ha, hb]
  · rcases hd : rowsDiffer l r with _ | _
    · have hne : ¬ ∃ k ∈ rkeys l ++ rkeys r, rget l k ≠ rget r k := by
        rw [← rowsDiffer_eq_true_iff]; simp [hd]
      simp only [specDiffAtIndex, ha, hb, hd]
      rw [if_neg hne]
      simp
    · have hex : ∃ k ∈ rkeys l ++ rkeys r, rget l k ≠ rget r k :=
        (rowsDiffer_eq_true_iff l r).mp hd
      simp only [specDiffAtIndex, ha, hb, hd]
      rw [if_pos hex]
      simp

/-- A left fold that appends the optional output of `f` at each element
is the filterMap of `f`. -/
theorem foldl_append_toList_eq_filterMap {α β : Type}
    (f : α → Option β) (step : List β → α → List β) :
    ∀ (l : List α), (∀ i ∈ l, ∀ ds, step ds i = ds ++ (f i).toList) →
      ∀ acc : List β, l.foldl step acc = acc ++ l.filterMap f := by
  intro l
  induction l with
  | nil => intro _ acc; simp
  | cons x xs ih =>
    intro hstep acc
    have hx := hstep x (by simp) acc
    have hxs : ∀ i ∈ xs, ∀ ds, step ds i = ds ++ (f i).toList :=
      fun i hi => hstep i (by simp [hi])
    simp only [List.foldl_cons, hx, ih hxs, List.filterMap_cons]
    rcases f x with _ | v <;> simp

/-- The loop of `diffDatasets` computes exactly the per-position
specification records, in position order. -/
theorem diffDatasets_eq_filterMap (a b : List Row) :
    diffDatasets a b =
      (List.range (max a.length b.length)).filterMap (specDiffAtIndex a b) := by
  unfold diffDatasets
  have := foldl_append_toList_eq_filterMap (specDiffAtIndex a b)
    (fun diffs i =>
      match a[i]?, b[i]? with
      | some left, some right =>
        if rowsDiffer left right then
          diffs ++ [⟨i, some left, some right⟩]
        else diffs
      | l, r => diffs ++ [⟨i, l, r⟩])
    (List.range (max a.length b.length))
    (fun i hi ds => diff_step_eq (List.mem_range.mp hi) ds)
    []
  simpa using this

/-- A record emitted for position `i` carries index `i`. -/
theorem specDiffAtIndex_index {a b : List Row} {i : Nat} {d : DiffRec}
    (h : specDiffAtIndex a b i = some d) : d.index = i := by
  unfold specDiffAtIndex at h
  split at h
  · split at h
    · cases Option.some.inj h; rfl
    · exact absurd h (by simp)
  · cases Option.some.inj h; rfl
  · cases Option.some.inj h; rfl
  · exact absurd h (by simp)

/-- A record emitted for any position has at least one side present. -/
theorem specDiffAtIndex_some_side {a b : List Row} {i : Nat} {d : DiffRec}
    (h : specDiffAtIndex a b i = some d) :
    (d.left.isSome || d.right.isSome) = true := by
  unfold specDiffAtIndex at h
  split at h
  · split at h
    · cases Option.some.inj h; rfl
    · exact absurd h (by simp)
  · cases Option.some.inj h; rfl
  · cases Option.some.inj h; rfl
  · exact absurd h (by simp)

/-- The records of `diffDatasets` carry strictly increasing indices. -/
theorem diffDatasets_pairwise_index_lt (a b : List Row) :
    (diffDatasets a b).Pairwise (fun d e => d.index < e.index) := by
  rw [diffDatasets_eq_filterMap, List.pairwise_filterMap]
  refine (List.pairwise_lt_range _).imp ?_
  intro i j hij d hd e he
  rw [specDiffAtIndex_index (Option.mem_def.mp hd),
    specDiffAtIndex_index (Option.mem_def.mp he)]
  exact hij

/-- C1: the claim that `areDatasetsEqual(a, b)` is true iff
`diffDatasets(a, b)` is empty fails on the code: with
`a = [{x:"1", y:""}]` and `b = [{x:"1", z:"2"}]` the equality check
passes (it compares key counts and only the left row's keys, and `y`
normalizes to the empty string on both sides) while the diff, which
scans the union of keys, reports column `z` (`""` vs `"2"`). -/
theorem C1_equal_true_but_diff_nonempty :
    areDatasetsEqual cexA cexB = true ∧ diffDatasets cexA cexB ≠ [] := by
  decide

/-- C2: the claim that `areDatasetsEqual` decides full structural
equality over the union of each row pair's keys fails on the code: on
`a = [{x:"1", y:""}]`, `b = [{x:"1", z:"2"}]` the source function
returns true although key `z` carries `""` on the left and `"2"` on
the right, so the spec-side structural equality is false. -/
theorem C2_equal_not_structural :
    areDatasetsEqual cexA cexB = true ∧ specDatasetsEqual cexA cexB = false := by
  decide

/-- C6: `diffDatasets(a, b)` visits the positions
`0 .. max(len a, len b) - 1` and emits, per position, exactly the
record described by the spec — a one-sided record when exactly one
side has a row, a two-sided record iff some column of the key union
differs after absent-to-empty normalization — and the emitted records
carry strictly ascending indices. -/
theorem C6_diffDatasets_matches_spec (a b : List Row) :
    diffDatasets a b =
      (List.range (max a.length b.length)).filterMap (specDiffAtIndex a b) ∧
    (diffDatasets a b).Pairwise (fun d e => d.index < e.index) :=
  ⟨diffDatasets_eq_filterMap a b, diffDatasets_pairwise_index_lt a b⟩

/-- C9: every record returned by `diffDatasets` has at least one side
populated, and no two returned records share an index. -/
theorem C9_diff_records_wellformed (a b : List Row) :
    (diffDatasets a b).all (fun d => d.left.isSome || d.right.isSome) = true ∧
    ((diffDatasets a b).map (fun d => d.index)).Nodup := by
  constructor
  · rw [List.all_eq_true]
    intro d hd
    rw [diffDatasets_eq_filterMap] at hd
    obtain ⟨i, _, hi⟩ := List.mem_filterMap.mp hd
    exact specDiffAtIndex_some_side hi
  · show ((diffDatasets a b).map (fun d => d.index)).Pairwise (· ≠ ·)
    rw [List.pairwise_map]
    exact (diffDatasets_pairwise_index_lt a b).imp Nat.ne_of_lt

/-- C8: the cell type classifier is total and deterministic — every
string, the empty string included, maps to exactly one member of the
closed enumeration, and the empty string maps to text. -/
theorem C8_detectCellType_total (s : String) :
    (detectCellType s = CellType.number ∨ detectCellType s = CellType.date ∨
      detectCellType s = CellType.boolean ∨ detectCellType s = CellType.text) ∧
    detectCellType "" = CellType.text := by
  refine ⟨?_, by decide⟩
  rcases h : detectCellType s with _ | _ | _ | _ <;> simp

/-- A cell passes the display filter exactly when its values differ,
or the type check is enabled and its detected types differ, and its
key is not suppressed. -/
theorem cellShown_eq_true_iff (tc : Bool) (ignored : List String)
    (d : DiffRec) (h : String) :
    cellShown tc ignored d h = true ↔
      (displayLV d h ≠ displayRV d h ∨
        (tc = true ∧
          detectCellType (displayLV d h) ≠ detectCellType (displayRV d h))) ∧
      ¬ encodeKey d.index h ∈ ignored := by
  unfold cellShown
  cases tc <;> simp [bne_iff_ne]

/-- C3 (amended): a Diff Record — row-presence mismatches included —
is kept by `differencesForDisplay` iff it is among the diffs and some
unified header has a cell whose values (or, with the type check
enabled, whose detected types) differ and whose Diff Key has not been
suppressed; presence mismatches receive no special treatment. -/
theorem C3_display_membership (differences : List DiffRec)
    (unifiedHeaders : List String) (tc : Bool) (ignored : List String)
    (d : DiffRec) :
    d ∈ differencesForDisplay differences unifiedHeaders tc ignored ↔
      d ∈ differences ∧ ∃ h ∈ unifiedHeaders,
        (displayLV d h ≠ displayRV d h ∨
          (tc = true ∧
            detectCellType (displayLV d h) ≠ detectCellType (displayRV d h))) ∧
        ¬ encodeKey d.index h ∈ ignored := by
  unfold differencesForDisplay
  rw [List.mem_filter, List.any_eq_true]
  simp only [cellShown_eq_true_iff]

/-- C3 counterexample: a row-presence mismatch record (right side
absent) is shown while its only cell's key is unsuppressed but
disappears from the effective output once that key is suppressed, so
presence mismatches are suppressible, contrary to the claim. -/
theorem C3_presence_record_suppressed :
    (⟨0, some [("x", "1")], none⟩ : DiffRec) ∈
        differencesForDisplay [⟨0, some [("x", "1")], none⟩] ["x"] false [] ∧
    differencesForDisplay [⟨0, some [("x", "1")], none⟩] ["x"] false ["0:x"]
      = [] := by
  decide

/-- C4 (amended): completing a file load for either side rewrites that
side's dataset, file name, the error slot and possibly the sort
column, but leaves the suppression list `ignoredCellKeys` unchanged —
it is not reset on reload. -/
theorem C4_reload_preserves_suppressions (st : AppState) (side : Side)
    (fileName : String) (parsed : ParsedSheet) :
    (handleFilesSuccess st side fileName parsed).ignoredCellKeys
      = st.ignoredCellKeys := by
  obtain ⟨hs, rs⟩ := parsed
  unfold handleFilesSuccess
  cases side <;> cases hs <;> simp only [] <;> try rfl
  all_goals split <;> rfl

/-- C4 counterexample: a state holding one suppressed key, after a
successful reload of the left dataset, still holds that key — the
suppression set is not reset to empty as the claim states. -/
theorem C4_reload_does_not_reset :
    (handleFilesSuccess ⟨none, none, none, none, "", none, ["0:x"]⟩
        Side.left "f.xlsx" ⟨["h"], []⟩).ignoredCellKeys = ["0:x"] ∧
    (handleFilesSuccess ⟨none, none, none, none, "", none, ["0:x"]⟩
        Side.left "f.xlsx" ⟨["h"], []⟩).ignoredCellKeys ≠ [] := by
  decide

/-- Totality of the Boolean sort relation, given totality and
sign-antisymmetry of the underlying string comparison — properties any
collation-backed comparison satisfies. -/
theorem rowLE_total (lc : String → String → Int)
    (Htot : ∀ x y, lc x y ≤ 0 ∨ lc y x ≤ 0)
    (Hsign : ∀ x y, 0 ≤ lc x y ↔ lc y x ≤ 0)
    (col : String) (dir : SortDirection) (a b : Row) :
    (rowLE lc col dir a b || rowLE lc col dir b a) = true := by
  unfold rowLE rowCompare
  rcases dir with _ | _ <;> simp only [Bool.or_eq_true, decide_eq_true_eq]
  · exact Htot _ _
  · rcases Htot (rget b col) (rget a col) with hc | hc
    · exact Or.inl (neg_nonpos.mpr ((Hsign _ _).mpr hc))
    · exact Or.inr (neg_nonpos.mpr ((Hsign _ _).mpr hc))

/-- Transitivity of the Boolean sort relation, given transitivity and
sign-antisymmetry of the underlying string comparison. -/
theorem rowLE_trans (lc : String → String → Int)
    (Htrans : ∀ x y z, lc x y ≤ 0 → lc y z ≤ 0 → lc x z ≤ 0)
    (Hsign : ∀ x y, 0 ≤ lc x y ↔ lc y x ≤ 0)
    (col : String) (dir : SortDirection) (a b c : Row) :
    rowLE lc col dir a b = true → rowLE lc col dir b c = true →
      rowLE lc col dir a c = true := by
  unfold rowLE rowCompare
  rcases dir with _ | _ <;> simp only [decide_eq_true_eq]
  · exact Htrans _ _ _
  · intro hab hbc
    rw [neg_nonpos] at hab hbc ⊢
    exact (Hsign _ _).mpr
      (Htrans _ _ _ ((Hsign _ _).mp hbc) ((Hsign _ _).mp hab))

/-- C7: sorting is idempotent — re-sorting an already sorted list with
the same column and direction returns it unchanged, for any string
comparison that is total, transitive and sign-antisymmetric (as the
locale collation backing `localeCompare` is). -/
theorem C7_sortRows_idempotent (lc : String → String → Int)
    (Htot : ∀ x y, lc x y ≤ 0 ∨ lc y x ≤ 0)
    (Htrans : ∀ x y z, lc x y ≤ 0 → lc y z ≤ 0 → lc x z ≤ 0)
    (Hsign : ∀ x y, 0 ≤ lc x y ↔ lc y x ≤ 0)
    (rows : List Row) (column : String) (direction : SortDirection) :
    sortRows lc (sortRows lc rows column direction) column direction
      = sortRows lc rows column direction := by
  unfold sortRows
  exact List.mergeSort_of_sorted
    (List.sorted_mergeSort
      (rowLE_trans lc Htrans Hsign column direction)
      (rowLE_total lc Htot Hsign column direction) rows)

/-- The length comparison is total. -/
theorem lcLen_total : ∀ x y, lcLen x y ≤ 0 ∨ lcLen y x ≤ 0 := by
  intro x y; unfold lcLen; omega

/-- The length comparison is transitive in its non-positive part. -/
theorem lcLen_trans :
    ∀ x y z, lcLen x y ≤ 0 → lcLen y z ≤ 0 → lcLen x z ≤ 0 := by
  intro x y z; unfold lcLen; omega

/-- The length comparison is sign-antisymmetric. -/
theorem lcLen_sign : ∀ x y, 0 ≤ lcLen x y ↔ lcLen y x ≤ 0 := by
  intro x y; unfold lcLen; omega

/-- C7 witness: the idempotence theorem applied to a concrete
comparison and a concrete two-row dataset. -/
theorem C7_witness :
    sortRows lcLen
        (sortRows lcLen [[("x", "bb")], [("x", "a")]] "x" SortDirection.asc)
        "x" SortDirection.asc
      = sortRows lcLen [[("x", "bb")], [("x", "a")]] "x" SortDirection.asc :=
  C7_sortRows_idempotent lcLen lcLen_total lcLen_trans lcLen_sign _ _ _

/-- Whenever every row reads the empty string under the sort column
and the comparison is reflexive at the empty string, every comparator
call returns zero, and the stable sort returns its input unchanged. -/
theorem sortRows_of_all_blank (lc : String → String → Int)
    (rows : List Row) (col : String) (dir : SortDirection)
    (h0 : lc "" "" = 0) (habs : ∀ r ∈ rows, rget r col = "") :
    sortRows lc rows col dir = rows := by
  unfold sortRows
  refine List.mergeSort_of_sorted (List.pairwise_of_forall_mem_list ?_)
  intro a ha b hb
  have hle : rowCompare lc col dir a b ≤ 0 := by
    unfold rowCompare
    rcases dir with _ | _ <;> simp [habs a ha, habs b hb, h0]
  simpa [rowLE] using hle

/-- C5 (amended): a criterion naming the empty column is not rejected
— `sortRows` is a total function with no failure channel, it treats
the empty column name like any column absent from the rows, comparing
empty strings throughout, and returns the row list unchanged. -/
theorem C5_empty_column_accepted (lc : String → String → Int)
    (rows : List Row) (direction : SortDirection)
    (h0 : lc "" "" = 0) (habs : ∀ r ∈ rows, rget r "" = "") :
    sortRows lc rows "" direction = rows :=
  sortRows_of_all_blank lc rows "" direction h0 habs

/-- C5 counterexample: a call with an empty column name is processed
normally instead of being rejected — it returns the (unsorted) input
rows rather than reporting a validation failure. -/
theorem C5_empty_column_not_rejected :
    sortRows lcLen [[("x", "b")], [("x", "a")]] "" SortDirection.asc
      = [[("x", "b")], [("x", "a")]] :=
  sortRows_of_all_blank lcLen _ "" SortDirection.asc (by decide) (by decide)

/-- C5 witness: the amended theorem applied to a concrete comparison,
dataset and direction. -/
theorem C5_witness :
    sortRows lcLen [[("a", "1")]] "" SortDirection.desc = [[("a", "1")]] :=
  C5_empty_column_accepted lcLen [[("a", "1")]] SortDirection.desc
    (by decide) (by decide)

/-- No decimal digit character is the colon used as the key
separator; the accumulator below only ever renders `n % 10`. -/
theorem digitChar_lt10_ne_colon : ∀ k, k < 10 → Nat.digitChar k ≠ ':' := by
  decide

/-- The decimal digit accumulator never emits a colon. -/
theorem toDigitsCore_colon_free :
    ∀ (f n : Nat) (ds : List Char), (∀ c ∈ ds, c ≠ ':') →
      ∀ c ∈ Nat.toDigitsCore 10 f n ds, c ≠ ':' := by
  intro f
  induction f with
  | zero => intro n ds hds; simpa [Nat.toDigitsCore] using hds
  | succ f ih =>
    intro n ds hds c hc
    simp only [Nat.toDigitsCore] at hc
    by_cases hz : n / 10 = 0
    · rw [if_pos hz] at hc
      rcases List.mem_cons.mp hc with rfl | hmem
      · exact digitChar_lt10_ne_colon _ (Nat.mod_lt _ (by omega))
      · exact hds c hmem
    · rw [if_neg hz] at hc
      refine ih (n / 10) _ ?_ c hc
      intro d hd
      rcases List.mem_cons.mp hd with rfl | hmem
      · exact digitChar_lt10_ne_colon _ (Nat.mod_lt _ (by omega))
      · exact hds d hmem

/-- The digit accumulator prepends to its accumulator. -/
theorem toDigitsCore_append :
    ∀ (f n : Nat) (ds : List Char),
      Nat.toDigitsCore 10 f n ds = Nat.toDigitsCore 10 f n [] ++ ds := by
  intro f
  induction f with
  | zero => intro n ds; simp [Nat.toDigitsCore]
  | succ f ih =>
    intro n ds
    simp only [Nat.toDigitsCore]
    by_cases hz : n / 10 = 0
    · rw [if_pos hz, if_pos hz]; rfl
    · rw [if_neg hz, if_neg hz, ih (n / 10) (Nat.digitChar (n % 10) :: ds),
        ih (n / 10) [Nat.digitChar (n % 10)]]
      simp

/-- The digit accumulator ignores its fuel once the fuel exceeds the
number being rendered. -/
theorem toDigitsCore_fuel :
    ∀ (f g n : Nat), n < f → n < g →
      Nat.toDigitsCore 10 f n [] = Nat.toDigitsCore 10 g n [] := by
  intro f
  induction f with
  | zero => intro g n hf; exact absurd hf (Nat.not_lt_zero n)
  | succ f ih =>
    intro g n hf hg
    rcases g with _ | g
    · exact absurd hg (Nat.not_lt_zero n)
    simp only [Nat.toDigitsCore]
    by_cases hz : n / 10 = 0
    · rw [if_pos hz, if_pos hz]
    · rw [if_neg hz, if_neg hz]
      have hn0 : n ≠ 0 := fun h => hz (by simp [h])
      have hlt : n / 10 < n := Nat.div_lt_self (Nat.pos_of_ne_zero hn0) (by omega)
      rw [toDigitsCore_append f (n / 10) [Nat.digitChar (n % 10)],
        toDigitsCore_append g (n / 10) [Nat.digitChar (n % 10)],
        ih g (n / 10) (by omega) (by omega)]

/-- Digit characters decode to their digit values. -/
theorem digitVal_digitChar : ∀ m, m < 10 → digitVal (Nat.digitChar m) = m := by
  decide

/-- Decoding the decimal rendering of a natural number recovers it. -/
theorem decode_toDigits : ∀ n : Nat, decodeDigits (Nat.toDigits 10 n) = n := by
  intro n
  induction n using Nat.strong_induction_on with
  | _ n ih =>
    unfold Nat.toDigits
    simp only [Nat.toDigitsCore]
    by_cases hz : n / 10 = 0
    · rw [if_pos hz]
      have h10 : n < 10 := by omega
      show decodeDigits [Nat.digitChar (n % 10)] = n
      unfold decodeDigits
      simp [digitVal_digitChar (n % 10) (by omega)]
      omega
    · rw [if_neg hz]
      have hn0 : n ≠ 0 := fun h => hz (by simp [h])
      have hlt : n / 10 < n := Nat.div_lt_self (Nat.pos_of_ne_zero hn0) (by omega)
      rw [toDigitsCore_append n (n / 10) [Nat.digitChar (n % 10)],
        toDigitsCore_fuel n (n / 10 + 1) (n / 10) (by omega) (by omega)]
      have ht : Nat.toDigitsCore 10 (n / 10 + 1) (n / 10) []
          = Nat.toDigits 10 (n / 10) := rfl
      rw [ht]
      unfold decodeDigits
      rw [List.foldl_append]
      have hrec := ih (n / 10) hlt
      unfold decodeDigits at hrec
      rw [hrec]
      simp [digitVal_digitChar (n % 10) (by omega)]
      omega

/-- The decimal rendering of a natural number determines it. -/
theorem repr_injective {m n : Nat} (h : Nat.repr m = Nat.repr n) : m = n := by
  have hd : Nat.toDigits 10 m = Nat.toDigits 10 n := by
    have := congrArg String.data h
    simpa [Nat.repr, List.asString] using this
  have := congrArg decodeDigits hd
  rwa [decode_toDigits, decode_toDigits] at this

/-- The decimal rendering of a natural number contains no colon. -/
theorem repr_colon_free (n : Nat) : ∀ c ∈ (Nat.repr n).data, c ≠ ':' := by
  intro c hc
  have hmem : c ∈ Nat.toDigits 10 n := by
    simpa [Nat.repr, List.asString] using hc
  exact toDigitsCore_colon_free (n + 1) n [] (by simp) c hmem

/-- Splitting at the first colon is unambiguous when neither prefix
contains a colon. -/
theorem append_colon_inj :
    ∀ (l₁ l₂ r₁ r₂ : List Char), (∀ c ∈ l₁, c ≠ ':') →
      (∀ c ∈ l₂, c ≠ ':') → l₁ ++ ':' :: r₁ = l₂ ++ ':' :: r₂ →
      l₁ = l₂ ∧ r₁ = r₂ := by
  intro l₁
  induction l₁ with
  | nil =>
    intro l₂ r₁ r₂ _ h₂ heq
    rcases l₂ with _ | ⟨c, t⟩
    · simpa using heq
    · injection heq with h1 h2
      exact absurd h1.symm (h₂ c (by simp))
  | cons c t ih =>
    intro l₂ r₁ r₂ h₁ h₂ heq
    rcases l₂ with _ | ⟨c', t'⟩
    · injection heq with h1 h2
      exact absurd h1 (h₁ c (by simp))
    · injection heq with h1 h2
      subst h1
      obtain ⟨ht, hr⟩ := ih t' r₁ r₂ (fun d hd => h₁ d (by simp [hd]))
        (fun d hd => h₂ d (by simp [hd])) h2
      exact ⟨by rw [ht], hr⟩

/-- The suppression key encoding `index ++ ":" ++ header` is
injective: the index's decimal digits contain no colon, so the first
colon delimits them, and the digits determine the index. -/
theorem encodeKey_inj {i i' : Nat} {h h' : String}
    (heq : encodeKey i h = encodeKey i' h') : i = i' ∧ h = h' := by
  unfold encodeKey at heq
  have hdata := congrArg String.data heq
  rw [String.data_append, String.data_append, String.data_append,
    String.data_append] at hdata
  have hcolon : (":" : String).data = [':'] := rfl
  rw [hcolon, List.append_assoc, List.append_assoc] at hdata
  simp only [List.singleton_append] at hdata
  obtain ⟨h1, h2⟩ := append_colon_inj _ _ _ _ (repr_colon_free i)
    (repr_colon_free i') hdata
  exact ⟨repr_injective (String.ext h1), String.ext h2⟩

/-- C10: toggling one Diff Key flips exactly that key's membership in
the suppression list and leaves every other key's membership
unchanged. -/
theorem C10_toggle_frame (prev : List String) (i : Nat) (h : String)
    (i' : Nat) (h' : String) (hne : ¬ (i = i' ∧ h = h')) :
    (encodeKey i' h' ∈ toggleIgnoreCell prev i h ↔ encodeKey i' h' ∈ prev) ∧
    (encodeKey i h ∈ toggleIgnoreCell prev i h ↔ ¬ encodeKey i h ∈ prev) := by
  have hkne : encodeKey i' h' ≠ encodeKey i h := fun hk =>
    hne ⟨(encodeKey_inj hk).1.symm, (encodeKey_inj hk).2.symm⟩
  unfold toggleIgnoreCell
  rcases hcc : prev.contains (encodeKey i h) with _ | _
  · have hnm : ¬ encodeKey i h ∈ prev := by
      simpa using hcc
    simp [hcc, hkne, hnm]
  · have hm : encodeKey i h ∈ prev := by
      simpa using hcc
    simp [hcc, List.mem_filter, bne_iff_ne, hkne, hm]

/-- C10 witness: toggling the key `(1, "y")` on the list holding only
`0:x` leaves `(0, "x")` suppressed and makes `(1, "y")` suppressed. -/
theorem C10_witness :
    (encodeKey 0 "x" ∈ toggleIgnoreCell ["0:x"] 1 "y" ↔
      encodeKey 0 "x" ∈ (["0:x"] : List String)) ∧
    (encodeKey 1 "y" ∈ toggleIgnoreCell ["0:x"] 1 "y" ↔
      ¬ encodeKey 1 "y" ∈ (["0:x"] : List String)) :=
  C10_toggle_frame ["0:x"] 1 "y" 0 "x" (by decide)

end GSQ
